import Mathlib

/-!
Shallow embedding of the trenes24-backend merge pipeline (GTFS-RT polling
aggregator).  The JavaScript source fetches three JSON feeds (vehicle
positions, trip updates, alerts), merges them into per-trip train records,
deduplicates alerts and caches the result for 30 seconds.

JavaScript conventions modelled explicitly:
* optional / possibly-missing JSON fields become `Option`;
* JavaScript truthiness on strings (`""` is falsy) and on numbers
  (`0` is falsy) is modelled by the `truthyStr` / `truthyQ` helpers;
* the JS object `trenes` (string-keyed, insertion ordered, overwrite in
  place) is modelled as an association list with `setKey` / `updateKey`;
* coordinates are modelled as exact rationals; `Number.prototype.toFixed(3)`
  is modelled by `toFixed3` (round half away from zero, three decimals).
-/

/-- JS truthiness for an optional string: `""`, `null` and `undefined`
are falsy.  `truthyStr x` is `some s` exactly when `x` holds a non-empty
string. -/
def truthyStr : Option String → Option String
  | some s => if s = "" then none else some s
  | none => none

/-- JS truthiness for an optional number: `0`, `null` and `undefined`
are falsy. -/
def truthyQ : Option ℚ → Option ℚ
  | some q => if q = 0 then none else some q
  | none => none

/-- `position` object of a GTFS-RT vehicle. -/
structure Position where
  latitude : Option ℚ
  longitude : Option ℚ
deriving DecidableEq

/-- `trip` descriptor carried by vehicles and trip updates. -/
structure TripDesc where
  tripId : Option String
deriving DecidableEq

/-- `vehicle` variant of a feed entity. -/
structure VehicleInfo where
  trip : Option TripDesc
  position : Option Position
  currentStatus : Option String
deriving DecidableEq

/-- `arrival` object of a stop-time update. -/
structure Arrival where
  delay : Option Int
deriving DecidableEq

/-- one `stopTimeUpdate` element of a trip update. -/
structure StopTimeUpdate where
  arrival : Option Arrival
deriving DecidableEq

/-- `tripUpdate` variant of a feed entity. -/
structure TripUpdateInfo where
  trip : Option TripDesc
  stopTimeUpdate : Option (List StopTimeUpdate)
deriving DecidableEq

/-- one element of a `translation` list. -/
structure Translation where
  text : Option String
deriving DecidableEq

/-- a translated-text object (`descriptionText` / `headerText`). -/
structure TranslatedText where
  translation : Option (List Translation)
deriving DecidableEq

/-- one element of an alert's `informedEntity` list. -/
structure InformedEntity where
  routeId : Option String
deriving DecidableEq

/-- `alert` variant of a feed entity. -/
structure AlertInfo where
  informedEntity : Option (List InformedEntity)
  descriptionText : Option TranslatedText
  headerText : Option TranslatedText
deriving DecidableEq

/-- one entity of a GTFS-RT feed; at most one variant is populated. -/
structure Entity where
  vehicle : Option VehicleInfo
  tripUpdate : Option TripUpdateInfo
  alert : Option AlertInfo
deriving DecidableEq

/-- a parsed feed payload: an optional `entity` list. -/
structure Feed where
  entity : Option (List Entity)
deriving DecidableEq

/-- `vehicles.entity?.forEach(...)`: a missing `entity` field iterates
nothing. -/
def entities (f : Feed) : List Entity :=
  f.entity.getD []

/-- Sentinel returned by `getJSON` on failure: `{ entity: [] }`. -/
def emptyFeed : Feed := { entity := some [] }

/-- `getJSON(url)`: the network fetch-and-parse is modelled by its result
(`Except`); the function converts any failure into the sentinel empty
payload and never rethrows. -/
def getJSON (fetched : Except String Feed) : Feed :=
  match fetched with
  | .ok f => f
  | .error _ => emptyFeed

/-- Uppercase alphanumeric character class `[0-9A-Z]` of the route regex. -/
def isAlnumUp (c : Char) : Bool :=
  (('0' ≤ c) && (c ≤ '9')) || (('A' ≤ c) && (c ≤ 'Z'))

/-- Regex search for `/([CR])([0-9A-Z]+)$/` over the characters of the
trip id: the leftmost `C` or `R` whose entire remaining suffix is one or
more `[0-9A-Z]` characters; returns the whole matched suffix. -/
def findMatch : List Char → Option (List Char)
  | [] => none
  | c :: rest =>
    if (c = 'C' ∨ c = 'R') ∧ rest ≠ [] ∧ rest.all isAlnumUp then
      some (c :: rest)
    else
      findMatch rest

/-- `deducirLinea(trip)`: derive the line label from a trip id; `"??"`
for a falsy id or when the regex does not match. -/
def deducirLinea (trip : String) : String :=
  if trip = "" then "??"
  else
    match findMatch trip.data with
    | some cs => String.mk cs
    | none => "??"

/-- Left-pad the fractional part to three digits. -/
def pad3 (k : Nat) : String :=
  if k < 10 then "00" ++ toString k
  else if k < 100 then "0" ++ toString k
  else toString k

/-- `x.toFixed(3)` on an exact rational: extract the sign, round the
magnitude times 1000 half away from zero (ECMA-262 picks the larger
candidate on ties), and render sign, integer part and three fractional
digits. -/
def toFixed3 (x : ℚ) : String :=
  let neg := x < 0
  let n : Nat := (Int.floor (|x| * 1000 + 1/2)).toNat
  let s := toString (n / 1000) ++ "." ++ pad3 (n % 1000)
  if neg then "-" ++ s else s

/-- one merged train record (`trenes[trip]` value). -/
structure TrainRecord where
  trip_id : String
  linea : String
  lat : Option ℚ
  lon : Option ℚ
  estado : String
  retraso : Int
deriving DecidableEq

/-- the in-progress train map: a JS object keyed by trip id, modelled as
an insertion-ordered association list. -/
abbrev Trenes := List (String × TrainRecord)

/-- Lookup in the train map (first entry with the key). -/
def getKey : Trenes → String → Option TrainRecord
  | [], _ => none
  | p :: rest, k => if p.1 = k then some p.2 else getKey rest k

/-- Whether the train map already has the key. -/
def hasKey : Trenes → String → Bool
  | [], _ => false
  | p :: rest, k => if p.1 = k then true else hasKey rest k

/-- Replace the value at every entry with the key (there is at most one
in maps built by `setKey`). -/
def replaceKey : Trenes → String → TrainRecord → Trenes
  | [], _, _ => []
  | p :: rest, k, v =>
    if p.1 = k then (k, v) :: replaceKey rest k v
    else p :: replaceKey rest k v

/-- `trenes[trip] = rec`: overwrite in place when the key exists,
otherwise append (JS string-keyed objects preserve insertion order). -/
def setKey (m : Trenes) (k : String) (v : TrainRecord) : Trenes :=
  if hasKey m k then replaceKey m k v else m ++ [(k, v)]

/-- Apply a function to the value stored at the key, leaving other
entries alone. -/
def updateKey : Trenes → String → (TrainRecord → TrainRecord) → Trenes
  | [], _, _ => []
  | p :: rest, k, f =>
    if p.1 = k then (p.1, f p.2) :: updateKey rest k f
    else p :: updateKey rest k f

/-- Trip resolution for a vehicle (lines 54-62 of the source): use the
truthy `tripId` if present, otherwise synthesize `SINID_<lat>_<lon>` from
a truthy position, otherwise give up. -/
def resolveTrip (v : VehicleInfo) : Option String :=
  match truthyStr (v.trip.bind TripDesc.tripId) with
  | some t => some t
  | none =>
    match truthyQ (v.position.bind Position.latitude),
          truthyQ (v.position.bind Position.longitude) with
    | some lat, some lon =>
      some ("SINID_" ++ toFixed3 lat ++ "_" ++ toFixed3 lon)
    | _, _ => none

/-- Build the train record stored for a resolved trip (lines 66-73). -/
def mkRecord (trip : String) (v : VehicleInfo) : TrainRecord :=
  { trip_id := trip
    linea := deducirLinea trip
    lat := truthyQ (v.position.bind Position.latitude)
    lon := truthyQ (v.position.bind Position.longitude)
    estado := (truthyStr v.currentStatus).getD "UNKNOWN"
    retraso := 0 }

/-- Process one entity of the vehicles feed (lines 49-74). -/
def processVehicleEnt (m : Trenes) (ent : Entity) : Trenes :=
  match ent.vehicle with
  | none => m
  | some v =>
    match resolveTrip v with
    | none => m
    | some trip => setKey m trip (mkRecord trip v)

/-- `if (stu.arrival?.delay) trenes[trip].retraso = Math.floor(delay/60)`
for one stop-time update (lines 84-88); a zero delay is falsy. -/
def applySTU (r : TrainRecord) (stu : StopTimeUpdate) : TrainRecord :=
  match stu.arrival with
  | some ar =>
    match ar.delay with
    | some d => if d = 0 then r else { r with retraso := Int.fdiv d 60 }
    | none => r
  | none => r

/-- Process one entity of the trip-updates feed (lines 77-89): discarded
unless its truthy trip id is already a key of the map. -/
def processUpdateEnt (m : Trenes) (ent : Entity) : Trenes :=
  match ent.tripUpdate with
  | none => m
  | some tu =>
    match truthyStr (tu.trip.bind TripDesc.tripId) with
    | none => m
    | some trip =>
      match getKey m trip with
      | none => m
      | some _ =>
        updateKey m trip (fun r => (tu.stopTimeUpdate.getD []).foldl applySTU r)

/-- a cleaned alert (`incidencias` element). -/
structure Incidencia where
  linea : String
  descripcion : String
deriving DecidableEq

/-- Extract a raw incidencia from one alerts-feed entity (lines 93-106):
route of the first informed entity (default `"??"`), description from the
first translation of `descriptionText` falling back to `headerText`,
dropped when blank after trimming. -/
def extractAlert (ent : Entity) : Option Incidencia :=
  match ent.alert with
  | none => none
  | some a =>
    let linea := (truthyStr ((a.informedEntity.bind List.head?).bind
      InformedEntity.routeId)).getD "??"
    let d1 := truthyStr (((a.descriptionText.bind
      TranslatedText.translation).bind List.head?).bind Translation.text)
    let d2 := truthyStr (((a.headerText.bind
      TranslatedText.translation).bind List.head?).bind Translation.text)
    let descripcion := (d1 <|> d2).getD ""
    if descripcion.trim = "" then none else some ⟨linea, descripcion⟩

/-- The dedup key `inc.linea + "|" + inc.descripcion` (line 111). -/
def incKey (inc : Incidencia) : String :=
  inc.linea ++ "|" ++ inc.descripcion

/-- The dedup filter with its `seen` set (lines 109-115). -/
def dedupAux (seen : List String) : List Incidencia → List Incidencia
  | [] => []
  | inc :: rest =>
    if incKey inc ∈ seen then dedupAux seen rest
    else inc :: dedupAux (incKey inc :: seen) rest

/-- Remove duplicate incidencias, keeping the first occurrence of each
concatenated key. -/
def dedupIncidencias (l : List Incidencia) : List Incidencia :=
  dedupAux [] l

/-- the payload returned by `buildData`. -/
structure Payload where
  trenes : List TrainRecord
  incidencias : List Incidencia
deriving DecidableEq

/-- `buildData()` (lines 39-121): fold the vehicles feed into the train
map, apply trip updates to existing keys, collect and dedup alerts;
`Object.values` is the insertion-ordered list of map values. -/
def buildData (vehicles updates alerts : Feed) : Payload :=
  let m1 := (entities vehicles).foldl processVehicleEnt []
  let m2 := (entities updates).foldl processUpdateEnt m1
  let raw := (entities alerts).filterMap extractAlert
  { trenes := m2.map Prod.snd
    incidencias := dedupIncidencias raw }

/-- `CACHE`: one shared slot with payload and timestamp (ms). -/
structure CacheState where
  data : Option Payload
  ts : Int
deriving DecidableEq

/-- `CACHE_MS = 30 * 1000`. -/
def CACHE_MS : Int := 30 * 1000

/-- `getCached()` (lines 123-131): if a payload is cached and younger
than 30 s return it; otherwise run `buildData` (its deterministic result
is the `built` argument), store it with the current timestamp and return
it.  The third component counts the fetch-merge-dedup cycles performed
by this call. -/
def getCached (now : Int) (st : CacheState) (built : Payload) :
    Payload × CacheState × Nat :=
  match st.data with
  | some d => if now - st.ts < CACHE_MS then (d, st, 0)
              else (built, ⟨some built, now⟩, 1)
  | none => (built, ⟨some built, now⟩, 1)

/-- The effective (truthy) arrival delay carried by one stop-time
update: `none` when `arrival` or `delay` is missing or the delay is the
falsy `0`. -/
def stuDelay (stu : StopTimeUpdate) : Option Int :=
  match stu.arrival with
  | some ar =>
    match ar.delay with
    | some d => if d = 0 then none else some d
    | none => none
  | none => none

/-- The non-zero arrival delays that one trip-update entity carries for
the trip id `k`, in upstream order. -/
def entityDelaysFor (k : String) (ent : Entity) : List Int :=
  match ent.tripUpdate with
  | none => []
  | some tu =>
    match truthyStr (tu.trip.bind TripDesc.tripId) with
    | none => []
    | some trip =>
      if trip = k then (tu.stopTimeUpdate.getD []).filterMap stuDelay else []

/-- All non-zero arrival delays that the updates feed carries for the
trip id `k`, in upstream order. -/
def delaysFor (k : String) : List Entity → List Int
  | [] => []
  | ent :: rest => entityDelaysFor k ent ++ delaysFor k rest

/-- Whether a string contains the dedup separator character. -/
def hasBar (s : String) : Bool :=
  s.data.any (fun c => c = '|')

/-- The first element of the list carrying the same
(line, description) pair as `a` — the first occurrence of the pair in
upstream iteration order. -/
def firstWithPair (a : Incidencia) : List Incidencia → Option Incidencia
  | [] => none
  | x :: rest =>
    if x.linea = a.linea ∧ x.descripcion = a.descripcion then some x
    else firstWithPair a rest

/-! ### Association-list lemmas for the train map -/

theorem getKey_replaceKey_self (m : Trenes) (k : String) (v : TrainRecord)
    (h : hasKey m k = true) : getKey (replaceKey m k v) k = some v := by
  induction m with
  | nil => simp [hasKey] at h
  | cons p rest ih =>
    by_cases hp : p.1 = k
    · simp [replaceKey, getKey, hp]
    · simp only [hasKey, if_neg hp] at h
      simp [replaceKey, getKey, hp, ih h]

theorem getKey_append_single (m : Trenes) (k : String) (v : TrainRecord)
    (h : hasKey m k = false) : getKey (m ++ [(k, v)]) k = some v := by
  induction m with
  | nil => simp [getKey]
  | cons p rest ih =>
    by_cases hp : p.1 = k
    · simp [hasKey, hp] at h
    · simp only [hasKey, if_neg hp] at h
      simp [getKey, hp, ih h]

theorem getKey_setKey_self (m : Trenes) (k : String) (v : TrainRecord) :
    getKey (setKey m k v) k = some v := by
  unfold setKey
  cases h : hasKey m k with
  | true => simp [h, getKey_replaceKey_self m k v h]
  | false => simp [h, getKey_append_single m k v h]

/-! ### Claim C3: fetch failures become the sentinel empty payload -/

/-- C3: for every failed fetch (network error, non-JSON body, timeout —
all modelled as an `Except.error`), `getJSON` returns the sentinel
`{ entity: [] }` payload instead of propagating the failure (it is a
total function into `Feed`), downstream iteration sees zero entities,
and a full build over such sentinels yields the all-empty payload. -/
theorem C3_getJSON_failure_sentinel (e : String) :
    getJSON (Except.error e) = emptyFeed ∧
    entities (getJSON (Except.error e)) = [] ∧
    buildData (getJSON (Except.error e)) (getJSON (Except.error e))
      (getJSON (Except.error e)) = ⟨[], []⟩ :=
  ⟨rfl, rfl, rfl⟩

/-! ### Claim C7: vehicles with neither trip id nor position are dropped -/

/-- C7: a vehicle entity whose trip id is falsy (absent or empty) and
whose position is absent produces no train record: the map is returned
unchanged, with no placeholder entry. -/
theorem C7_unresolvable_vehicle_dropped (m : Trenes) (ent : Entity)
    (v : VehicleInfo) (hv : ent.vehicle = some v)
    (ht : truthyStr (v.trip.bind TripDesc.tripId) = none)
    (hp : v.position = none) :
    processVehicleEnt m ent = m := by
  simp [processVehicleEnt, hv, resolveTrip, ht, hp, truthyQ]

/-- C7 witness: a concrete vehicle with no trip and no position leaves
the empty map empty. -/
theorem C7_witness :
    processVehicleEnt [] ⟨some ⟨none, none, none⟩, none, none⟩ = [] :=
  C7_unresolvable_vehicle_dropped [] ⟨some ⟨none, none, none⟩, none, none⟩
    ⟨none, none, none⟩ rfl rfl rfl

/-! ### Claim C8: an explicit trip id is kept verbatim -/

/-- C8: a vehicle entity carrying an explicit (non-empty) upstream trip
id is stored under exactly that id and the stored record's `trip_id`
field equals it, unchanged. -/
theorem C8_explicit_trip_id_kept (m : Trenes) (ent : Entity)
    (v : VehicleInfo) (t : String) (hv : ent.vehicle = some v)
    (ht : v.trip.bind TripDesc.tripId = some t) (hne : t ≠ "") :
    getKey (processVehicleEnt m ent) t = some (mkRecord t v) ∧
    (mkRecord t v).trip_id = t := by
  have hres : resolveTrip v = some t := by
    simp [resolveTrip, truthyStr, ht, hne]
  constructor
  · simp [processVehicleEnt, hv, hres, getKey_setKey_self]
  · rfl

/-- C8 witness: a concrete vehicle with trip id `"C1_001"` is stored
under the key `"C1_001"` verbatim. -/
theorem C8_witness :
    getKey (processVehicleEnt [] ⟨some ⟨some ⟨some "C1_001"⟩, none, none⟩,
      none, none⟩) "C1_001" =
      some (mkRecord "C1_001" ⟨some ⟨some "C1_001"⟩, none, none⟩) ∧
    (mkRecord "C1_001" ⟨some ⟨some "C1_001"⟩, none, none⟩).trip_id = "C1_001" :=
  C8_explicit_trip_id_kept [] _ ⟨some ⟨some "C1_001"⟩, none, none⟩ "C1_001"
    rfl rfl (by decide)

/-! ### Claim C6: unmatched trip updates are discarded -/

/-- C6: a trip-update entity whose trip id is falsy (absent or empty) or
does not match a key already in the train map is discarded: the map —
every key and every record, `retraso` included — is returned unchanged,
and no record is created. -/
theorem C6_unmatched_update_discarded (m : Trenes) (ent : Entity)
    (tu : TripUpdateInfo) (htu : ent.tripUpdate = some tu)
    (h : truthyStr (tu.trip.bind TripDesc.tripId) = none ∨
      ∀ t, truthyStr (tu.trip.bind TripDesc.tripId) = some t → getKey m t = none) :
    processUpdateEnt m ent = m := by
  cases h with
  | inl h1 => simp [processUpdateEnt, htu, h1]
  | inr h2 =>
    cases ht : truthyStr (tu.trip.bind TripDesc.tripId) with
    | none => simp [processUpdateEnt, htu, ht]
    | some t => simp [processUpdateEnt, htu, ht, h2 t ht]

/-- C6 witness: an update for trip `"R4X"` leaves a map holding only
`"C1"` untouched. -/
theorem C6_witness :
    processUpdateEnt [("C1", ⟨"C1", "C1", none, none, "UNKNOWN", 0⟩)]
      ⟨none, some ⟨some ⟨some "R4X"⟩, some [⟨some ⟨some 300⟩⟩]⟩, none⟩ =
      [("C1", ⟨"C1", "C1", none, none, "UNKNOWN", 0⟩)] :=
  C6_unmatched_update_discarded _ _ ⟨some ⟨some "R4X"⟩, some [⟨some ⟨some 300⟩⟩]⟩
    rfl (Or.inr (by intro t ht; cases ht; rfl))

/-! ### Claim C9: the 30-second cache -/

/-- C9: while a cached payload exists and is younger than the 30 s
threshold, `getCached` returns it unchanged, leaves the slot alone and
runs zero fetch-merge-dedup cycles; with an empty or expired slot it runs
exactly one cycle, stores the fresh payload with the current timestamp
and returns it; consequently a second call within 30 s of a miss returns
the very payload stored by the miss, fetching nothing. -/
theorem C9_cache_behavior (st : CacheState) (now : Int) (built : Payload) :
    (∀ d, st.data = some d → now - st.ts < CACHE_MS →
      getCached now st built = (d, st, 0)) ∧
    (st.data = none ∨ CACHE_MS ≤ now - st.ts →
      getCached now st built = (built, ⟨some built, now⟩, 1)) ∧
    (∀ now2, st.data = none → now2 - now < CACHE_MS →
      getCached now2 (getCached now st built).2.1 built =
        ((getCached now st built).1, ⟨some built, now⟩, 0)) := by
  refine ⟨?_, ?_, ?_⟩
  · intro d hd hlt
    simp [getCached, hd, hlt]
  · intro h
    cases hd : st.data with
    | none => simp [getCached, hd]
    | some d =>
      cases h with
      | inl h1 => rw [hd] at h1; cases h1
      | inr h2 => simp [getCached, hd, not_lt.mpr h2]
  · intro now2 hd hlt
    simp [getCached, hd, hlt]

/-- C9 witness: with a payload cached at time 0, a call at 10 s returns
it with zero cycles, and a call at 40 s rebuilds, restamps and returns
the fresh payload with one cycle. -/
theorem C9_witness :
    getCached 10000 ⟨some ⟨[], []⟩, 0⟩ ⟨[], [⟨"C1", "x"⟩]⟩ =
      (⟨[], []⟩, ⟨some ⟨[], []⟩, 0⟩, 0) ∧
    getCached 40000 ⟨none, 0⟩ ⟨[], []⟩ =
      (⟨[], []⟩, ⟨some ⟨[], []⟩, 40000⟩, 1) :=
  ⟨(C9_cache_behavior ⟨some ⟨[], []⟩, 0⟩ 10000 _).1 ⟨[], []⟩ rfl (by decide),
   (C9_cache_behavior ⟨none, 0⟩ 40000 ⟨[], []⟩).2.1 (Or.inl rfl)⟩

/-! ### Claim C10: zero coordinates are treated as absent -/

/-- C10: a coordinate that is exactly 0 is falsy: a vehicle without a
truthy trip id whose latitude or longitude is exactly 0 is dropped
rather than given a `SINID` identifier, and in every stored record a
latitude or longitude of exactly 0 is stored as `none` rather than 0. -/
theorem C10_zero_coordinate_absent (m : Trenes) (ent : Entity)
    (v : VehicleInfo) (p : Position) (hv : ent.vehicle = some v)
    (hp : v.position = some p) :
    (truthyStr (v.trip.bind TripDesc.tripId) = none →
      (p.latitude = some 0 ∨ p.longitude = some 0) →
      processVehicleEnt m ent = m) ∧
    (∀ t, resolveTrip v = some t →
      getKey (processVehicleEnt m ent) t = some (mkRecord t v) ∧
      (p.latitude = some 0 → (mkRecord t v).lat = none) ∧
      (p.longitude = some 0 → (mkRecord t v).lon = none)) := by
  constructor
  · intro ht hzero
    have hres : resolveTrip v = none := by
      cases hzero with
      | inl hla =>
        simp [resolveTrip, ht, hp, hla, truthyQ]
      | inr hlo =>
        simp only [resolveTrip, ht, hp]
        cases hq : truthyQ (Position.latitude p) with
        | none => simp [hq]
        | some la => simp [hq, hlo, truthyQ]
    simp [processVehicleEnt, hv, hres]
  · intro t hres
    refine ⟨?_, ?_, ?_⟩
    · simp [processVehicleEnt, hv, hres, getKey_setKey_self]
    · intro hla; simp [mkRecord, hp, hla, truthyQ]
    · intro hlo; simp [mkRecord, hp, hlo, truthyQ]

/-- C10 witness: a vehicle with no trip id and latitude exactly 0 is
dropped, and one with trip id `"T"` and latitude 0 stores `lat = none`. -/
theorem C10_witness :
    processVehicleEnt [] ⟨some ⟨none, some ⟨some 0, some 5⟩, none⟩, none, none⟩
      = [] ∧
    (mkRecord "T" ⟨some ⟨some "T"⟩, some ⟨some 0, some 5⟩, none⟩).lat = none :=
  ⟨(C10_zero_coordinate_absent [] _ ⟨none, some ⟨some 0, some 5⟩, none⟩
      ⟨some 0, some 5⟩ rfl rfl).1 rfl (Or.inl rfl),
   ((C10_zero_coordinate_absent [] ⟨some ⟨some ⟨some "T"⟩, some ⟨some 0, some 5⟩,
      none⟩, none, none⟩ ⟨some ⟨some "T"⟩, some ⟨some 0, some 5⟩, none⟩
      ⟨some 0, some 5⟩ rfl rfl).2 "T" (by decide)).2.1 rfl⟩

/-! ### Claim C4: SINID synthesis and collapse -/

/-- C4: a vehicle with a falsy trip id but truthy latitude and longitude
gets the deterministic synthesized id `SINID_<lat>_<lon>` with both
coordinates rendered by `toFixed3` (three decimal places), and two such
vehicles whose coordinates round to the same three-decimal strings in
one cycle collapse into a single train record (the later one wins). -/
theorem C4_sinid_synthesis_and_collapse (v1 v2 : VehicleInfo)
    (p1 p2 : Position) (la1 lo1 la2 lo2 : ℚ)
    (h1t : truthyStr (v1.trip.bind TripDesc.tripId) = none)
    (h2t : truthyStr (v2.trip.bind TripDesc.tripId) = none)
    (h1p : v1.position = some p1) (h2p : v2.position = some p2)
    (h1la : p1.latitude = some la1) (h1lo : p1.longitude = some lo1)
    (h2la : p2.latitude = some la2) (h2lo : p2.longitude = some lo2)
    (n1la : la1 ≠ 0) (n1lo : lo1 ≠ 0) (n2la : la2 ≠ 0) (n2lo : lo2 ≠ 0) :
    resolveTrip v1 = some ("SINID_" ++ toFixed3 la1 ++ "_" ++ toFixed3 lo1) ∧
    (toFixed3 la2 = toFixed3 la1 → toFixed3 lo2 = toFixed3 lo1 →
      ∀ e1 e2 : Entity, e1.vehicle = some v1 → e2.vehicle = some v2 →
        processVehicleEnt (processVehicleEnt [] e1) e2 =
          [("SINID_" ++ toFixed3 la1 ++ "_" ++ toFixed3 lo1,
            mkRecord ("SINID_" ++ toFixed3 la1 ++ "_" ++ toFixed3 lo1) v2)]) := by
  have hr1 : resolveTrip v1 =
      some ("SINID_" ++ toFixed3 la1 ++ "_" ++ toFixed3 lo1) := by
    simp [resolveTrip, h1t, h1p, h1la, h1lo, truthyQ, n1la, n1lo]
  have hr2 : resolveTrip v2 =
      some ("SINID_" ++ toFixed3 la2 ++ "_" ++ toFixed3 lo2) := by
    simp [resolveTrip, h2t, h2p, h2la, h2lo, truthyQ, n2la, n2lo]
  refine ⟨hr1, ?_⟩
  intro hla hlo e1 e2 he1 he2
  rw [hla, hlo] at hr2
  simp [processVehicleEnt, he1, he2, hr1, hr2, setKey, hasKey, replaceKey]

/-- C4 witness: the exact coordinates `(1/3, -2/3)` and
`(0.333, -0.667)` round to the same three-decimal strings, so the two
trips collapse to a single record keyed `SINID_0.333_-0.667`. -/
theorem C4_witness :
    processVehicleEnt (processVehicleEnt []
        ⟨some ⟨none, some ⟨some (1/3), some (-2/3)⟩, none⟩, none, none⟩)
        ⟨some ⟨none, some ⟨some (333/1000), some (-667/1000)⟩, none⟩,
          none, none⟩ =
      [("SINID_" ++ toFixed3 (1/3) ++ "_" ++ toFixed3 (-2/3),
        mkRecord ("SINID_" ++ toFixed3 (1/3) ++ "_" ++ toFixed3 (-2/3))
          ⟨none, some ⟨some (333/1000), some (-667/1000)⟩, none⟩)] := by
  have e333 : toFixed3 (333/1000) = toFixed3 (1/3) := by
    have ha : toFixed3 (1/3) = "0.333" := by
      have hneg : ¬((1/3 : ℚ) < 0) := by norm_num
      have hfl : (⌊|(1/3 : ℚ)| * 1000 + 1/2⌋ : ℤ) = 333 := by
        rw [abs_of_nonneg (by norm_num : (0:ℚ) ≤ 1/3)]
        norm_num [Int.floor_eq_iff]
      simp only [toFixed3, hfl, if_neg hneg]
      rfl
    have hb : toFixed3 (333/1000) = "0.333" := by
      have hneg : ¬((333/1000 : ℚ) < 0) := by norm_num
      have hfl : (⌊|(333/1000 : ℚ)| * 1000 + 1/2⌋ : ℤ) = 333 := by
        rw [abs_of_nonneg (by norm_num : (0:ℚ) ≤ 333/1000)]
        norm_num [Int.floor_eq_iff]
      simp only [toFixed3, hfl, if_neg hneg]
      rfl
    rw [ha, hb]
  have e667 : toFixed3 (-667/1000) = toFixed3 (-2/3) := by
    have ha : toFixed3 (-2/3) = "-0.667" := by
      have hneg : ((-2/3 : ℚ) < 0) := by norm_num
      have hfl : (⌊|(-2/3 : ℚ)| * 1000 + 1/2⌋ : ℤ) = 667 := by
        rw [abs_of_neg hneg]
        norm_num [Int.floor_eq_iff]
      simp only [toFixed3, hfl, if_pos hneg]
      rfl
    have hb : toFixed3 (-667/1000) = "-0.667" := by
      have hneg : ((-667/1000 : ℚ) < 0) := by norm_num
      have hfl : (⌊|(-667/1000 : ℚ)| * 1000 + 1/2⌋ : ℤ) = 667 := by
        rw [abs_of_neg hneg]
        norm_num [Int.floor_eq_iff]
      simp only [toFixed3, hfl, if_pos hneg]
      rfl
    rw [ha, hb]
  exact (C4_sinid_synthesis_and_collapse
    ⟨none, some ⟨some (1/3), some (-2/3)⟩, none⟩
    ⟨none, some ⟨some (333/1000), some (-667/1000)⟩, none⟩
    ⟨some (1/3), some (-2/3)⟩ ⟨some (333/1000), some (-667/1000)⟩
    (1/3) (-2/3) (333/1000) (-667/1000)
    rfl rfl rfl rfl rfl rfl rfl rfl
    (by norm_num) (by norm_num) (by norm_num) (by norm_num)).2
    e333 e667 _ _ rfl rfl

/-! ### Claim C5: the deducirLinea contract -/

/-- Any successful regex search result decomposes the input: the match
is a suffix `c :: code` with `c` one of `C`/`R` and `code` a non-empty
run of `[0-9A-Z]`. -/
theorem findMatch_shape (l res : List Char) (h : findMatch l = some res) :
    ∃ pre c code, l = pre ++ c :: code ∧ (c = 'C' ∨ c = 'R') ∧ code ≠ [] ∧
      code.all isAlnumUp ∧ res = c :: code := by
  induction l with
  | nil => simp [findMatch] at h
  | cons c rest ih =>
    simp only [findMatch] at h
    split at h
    · rename_i hcond
      obtain ⟨hc, hne, hall⟩ := hcond
      injection h with h2
      exact ⟨[], c, rest, rfl, hc, hne, hall, h2.symm⟩
    · obtain ⟨pre, c2, code, heq, hc, hne, hall, hres⟩ := ih h
      exact ⟨c :: pre, c2, code, by rw [List.cons_append, heq], hc, hne,
        hall, hres⟩

/-- If the input ends in a well-shaped suffix somewhere, the regex
search succeeds. -/
theorem findMatch_isSome_of_shape (pre : List Char) (c : Char)
    (code : List Char) (hc : c = 'C' ∨ c = 'R') (hne : code ≠ [])
    (hall : code.all isAlnumUp) :
    (findMatch (pre ++ c :: code)).isSome = true := by
  induction pre with
  | nil =>
    rw [List.nil_append]
    simp only [findMatch]
    rw [if_pos ⟨hc, hne, hall⟩]
    rfl
  | cons x pre ih =>
    rw [List.cons_append]
    simp only [findMatch]
    split
    · rfl
    · exact ih

/-- C5: `deducirLinea` is a pure function of the trip id; whenever the
id ends in `C` or `R` followed by a non-empty run of `[0-9A-Z]`, the
returned line is such a matched suffix (the recognized prefix letter
concatenated with its code), and for every id admitting no such suffix
decomposition — the empty id included — it returns the sentinel
`"??"`. -/
theorem C5_deducirLinea_contract (trip : String) :
    ((∃ pre c code, trip.data = pre ++ c :: code ∧ (c = 'C' ∨ c = 'R') ∧
        code ≠ [] ∧ code.all isAlnumUp) →
      ∃ pre c code, trip.data = pre ++ c :: code ∧ (c = 'C' ∨ c = 'R') ∧
        code ≠ [] ∧ code.all isAlnumUp ∧
        deducirLinea trip = String.mk (c :: code)) ∧
    ((¬ ∃ pre c code, trip.data = pre ++ c :: code ∧ (c = 'C' ∨ c = 'R') ∧
        code ≠ [] ∧ code.all isAlnumUp) →
      deducirLinea trip = "??") := by
  constructor
  · rintro ⟨pre, c, code, heq, hc, hne, hall⟩
    have hsome : (findMatch trip.data).isSome = true := by
      rw [heq]; exact findMatch_isSome_of_shape pre c code hc hne hall
    obtain ⟨res, hres⟩ := Option.isSome_iff_exists.mp hsome
    obtain ⟨pre2, c2, code2, heq2, hc2, hne2, hall2, hres2⟩ :=
      findMatch_shape trip.data res hres
    have htrip : trip ≠ "" := by
      intro h0
      have hd : ("" : String).data = [] := rfl
      rw [h0, hd] at heq
      exact (List.cons_ne_nil c code) (List.append_eq_nil.mp heq.symm).2
    refine ⟨pre2, c2, code2, heq2, hc2, hne2, hall2, ?_⟩
    unfold deducirLinea
    rw [if_neg htrip, hres, hres2]
  · intro hnone
    by_cases h0 : trip = ""
    · unfold deducirLinea
      rw [if_pos h0]
    · unfold deducirLinea
      rw [if_neg h0]
      cases hfm : findMatch trip.data with
      | none => rfl
      | some res =>
        obtain ⟨pre, c, code, heq, hc, hne, hall, _⟩ :=
          findMatch_shape trip.data res hfm
        exact absurd ⟨pre, c, code, heq, hc, hne, hall⟩ hnone

/-- C5 witness: `"X_C12"` decomposes as `['X','_'] ++ 'C' :: ['1','2']`
and `deducirLinea` returns that suffix, `"C12"`. -/
theorem C5_witness :
    ∃ pre c code, ("X_C12" : String).data = pre ++ c :: code ∧
      (c = 'C' ∨ c = 'R') ∧ code ≠ [] ∧ code.all isAlnumUp ∧
      deducirLinea "X_C12" = String.mk (c :: code) :=
  (C5_deducirLinea_contract "X_C12").1
    ⟨['X', '_'], 'C', ['1', '2'], rfl, Or.inl rfl, by decide, by decide⟩

/-! ### Claim C2: alert deduplication -/

theorem mem_dedupAux : ∀ (l : List Incidencia) (seen : List String)
    (b : Incidencia), b ∈ dedupAux seen l → b ∈ l ∧ incKey b ∉ seen := by
  intro l
  induction l with
  | nil => intro seen b h; simp [dedupAux] at h
  | cons inc rest ih =>
    intro seen b h
    simp only [dedupAux] at h
    split at h
    · obtain ⟨hb, hk⟩ := ih seen b h
      exact ⟨List.mem_cons_of_mem _ hb, hk⟩
    · rename_i hnotin
      rcases List.mem_cons.mp h with rfl | hb2
      · exact ⟨List.mem_cons_self _ _, hnotin⟩
      · obtain ⟨hb, hk⟩ := ih (incKey inc :: seen) b hb2
        exact ⟨List.mem_cons_of_mem _ hb,
          fun hs => hk (List.mem_cons_of_mem _ hs)⟩

theorem dedupAux_pairwise_key : ∀ (l : List Incidencia) (seen : List String),
    (dedupAux seen l).Pairwise (fun a b => incKey a ≠ incKey b) := by
  intro l
  induction l with
  | nil => intro seen; simp [dedupAux]
  | cons inc rest ih =>
    intro seen
    simp only [dedupAux]
    split
    · exact ih seen
    · refine List.Pairwise.cons ?_ (ih (incKey inc :: seen))
      intro b hb he
      exact (mem_dedupAux rest (incKey inc :: seen) b hb).2
        (he ▸ List.mem_cons_self _ _)

theorem barFree_append_inj : ∀ (l1 l2 d1 d2 : List Char), '|' ∉ l1 →
    '|' ∉ l2 → l1 ++ '|' :: d1 = l2 ++ '|' :: d2 → l1 = l2 ∧ d1 = d2 := by
  intro l1
  induction l1 with
  | nil =>
    intro l2 d1 d2 _ h2 he
    cases l2 with
    | nil =>
      simp only [List.nil_append] at he
      injection he with _ he2
      exact ⟨rfl, he2⟩
    | cons y l2 =>
      simp only [List.nil_append, List.cons_append] at he
      injection he with he1 _
      exact absurd (List.mem_cons.mpr (Or.inl he1)) h2
  | cons x l1 ih =>
    intro l2 d1 d2 h1 h2 he
    cases l2 with
    | nil =>
      simp only [List.cons_append, List.nil_append] at he
      injection he with he1 _
      exact absurd (List.mem_cons.mpr (Or.inl he1.symm)) h1
    | cons y l2 =>
      simp only [List.cons_append] at he
      injection he with he1 he2
      obtain ⟨ha, hb⟩ := ih l2 d1 d2
        (fun hm => h1 (List.mem_cons_of_mem _ hm))
        (fun hm => h2 (List.mem_cons_of_mem _ hm)) he2
      exact ⟨by rw [he1, ha], hb⟩

theorem hasBar_false_notMem (s : String) (h : hasBar s = false) :
    '|' ∉ s.data := by
  intro hm
  unfold hasBar at h
  rw [List.any_eq_false] at h
  exact h '|' hm rfl

theorem incKey_data (a : Incidencia) :
    (incKey a).data = a.linea.data ++ '|' :: a.descripcion.data := by
  simp [incKey, String.data_append]

theorem incKey_inj (a b : Incidencia) (ha : hasBar a.linea = false)
    (hb : hasBar b.linea = false) (he : incKey a = incKey b) :
    a.linea = b.linea ∧ a.descripcion = b.descripcion := by
  have hd : a.linea.data ++ '|' :: a.descripcion.data =
      b.linea.data ++ '|' :: b.descripcion.data := by
    rw [← incKey_data, ← incKey_data, he]
  obtain ⟨h1, h2⟩ := barFree_append_inj a.linea.data b.linea.data
    a.descripcion.data b.descripcion.data
    (hasBar_false_notMem _ ha) (hasBar_false_notMem _ hb) hd
  exact ⟨String.ext h1, String.ext h2⟩

theorem dedupAux_keeps_firstWithPair :
    ∀ (l : List Incidencia) (seen : List String) (a : Incidencia),
      a ∈ l → incKey a ∉ seen → (∀ x ∈ l, hasBar x.linea = false) →
      ∃ b, firstWithPair a l = some b ∧ b ∈ dedupAux seen l ∧
        b.linea = a.linea ∧ b.descripcion = a.descripcion := by
  intro l
  induction l with
  | nil => intro seen a ha _ _; cases ha
  | cons inc rest ih =>
    intro seen a ha hs hbar
    have hbar_inc : hasBar inc.linea = false :=
      hbar inc (List.mem_cons_self _ _)
    have hbar_a : hasBar a.linea = false := hbar a ha
    by_cases hp : inc.linea = a.linea ∧ inc.descripcion = a.descripcion
    · have hkey : incKey inc = incKey a := by
        simp [incKey, hp.1, hp.2]
      refine ⟨inc, ?_, ?_, hp.1, hp.2⟩
      · simp only [firstWithPair, if_pos hp]
      · simp only [dedupAux]
        rw [if_neg (hkey ▸ hs)]
        exact List.mem_cons_self _ _
    · have hkey : incKey inc ≠ incKey a := by
        intro he
        exact hp (incKey_inj inc a hbar_inc hbar_a he)
      have ha2 : a ∈ rest := by
        rcases List.mem_cons.mp ha with rfl | h
        · exact absurd ⟨rfl, rfl⟩ hp
        · exact h
      have hbar2 : ∀ x ∈ rest, hasBar x.linea = false :=
        fun x hx => hbar x (List.mem_cons_of_mem _ hx)
      rw [firstWithPair, if_neg hp]
      simp only [dedupAux]
      split
      · exact ih seen a ha2 hs hbar2
      · obtain ⟨b, hfb, hmem, hl, hd⟩ := ih (incKey inc :: seen) a ha2
          (by
            intro hmem2
            rcases List.mem_cons.mp hmem2 with he | hseen
            · exact hkey he.symm
            · exact hs hseen) hbar2
        exact ⟨b, hfb, List.mem_cons_of_mem _ hmem, hl, hd⟩

/-- C2 counterexample: the dedup key is the concatenation
`linea ++ "|" ++ descripcion`, so the distinct pairs `("A|B", "C")` and
`("A", "B|C")` collide; the pair `("A", "B|C")` occurs in the input yet
no output alert carries it — its first occurrence is not kept, refuting
the claim as stated. -/
theorem C2_counterexample :
    (⟨"A", "B|C"⟩ : Incidencia) ∈
      ([⟨"A|B", "C"⟩, ⟨"A", "B|C"⟩] : List Incidencia) ∧
    dedupIncidencias [⟨"A|B", "C"⟩, ⟨"A", "B|C"⟩] = [⟨"A|B", "C"⟩] ∧
    ∀ b ∈ dedupIncidencias [⟨"A|B", "C"⟩, ⟨"A", "B|C"⟩],
      ¬(b.linea = "A" ∧ b.descripcion = "B|C") := by
  decide

/-- C2 (amended): the deduplicated output never contains two alerts with
the same (line, description) pair; and provided no alert's line contains
the `"|"` separator (so the concatenated dedup keys cannot collide
across distinct pairs), the alert kept for each pair occurring in the
input is exactly its first occurrence in upstream iteration order. -/
theorem C2_amended_dedup (l : List Incidencia)
    (hbar : ∀ x ∈ l, hasBar x.linea = false) :
    (dedupIncidencias l).Pairwise
      (fun a b => ¬(a.linea = b.linea ∧ a.descripcion = b.descripcion)) ∧
    ∀ a ∈ l, ∃ b, firstWithPair a l = some b ∧ b ∈ dedupIncidencias l ∧
      b.linea = a.linea ∧ b.descripcion = a.descripcion := by
  constructor
  · refine List.Pairwise.imp ?_ (dedupAux_pairwise_key l [])
    intro a b hk hpair
    exact hk (by simp [incKey, hpair.1, hpair.2])
  · intro a ha
    exact dedupAux_keeps_firstWithPair l [] a ha (by simp) hbar

/-- C2 witness: with separator-free lines, the duplicate of
`("L1", "d")` dedups to its first occurrence. -/
theorem C2_witness :
    ∃ b, firstWithPair ⟨"L1", "d"⟩
        [⟨"L1", "d"⟩, ⟨"L1", "dd"⟩, ⟨"L1", "d"⟩] = some b ∧
      b ∈ dedupIncidencias [⟨"L1", "d"⟩, ⟨"L1", "dd"⟩, ⟨"L1", "d"⟩] ∧
      b.linea = "L1" ∧ b.descripcion = "d" :=
  (C2_amended_dedup [⟨"L1", "d"⟩, ⟨"L1", "dd"⟩, ⟨"L1", "d"⟩]
    (by decide)).2 ⟨"L1", "d"⟩ (by decide)

/-! ### Claim C1: characterization of retraso -/

theorem applySTU_eq (r : TrainRecord) (stu : StopTimeUpdate) :
    applySTU r stu = (match stuDelay stu with
      | none => r
      | some d => { r with retraso := Int.fdiv d 60 }) := by
  obtain ⟨arOpt⟩ := stu
  cases arOpt with
  | none => rfl
  | some ar =>
    obtain ⟨dOpt⟩ := ar
    cases dOpt with
    | none => rfl
    | some d => by_cases hd : d = 0 <;> simp [applySTU, stuDelay, hd]

theorem applySTU_foldl : ∀ (stus : List StopTimeUpdate) (r : TrainRecord),
    stus.foldl applySTU r =
      { r with retraso := ((stus.filterMap stuDelay).foldl
          (fun _ d => Int.fdiv d 60) r.retraso) } := by
  intro stus
  induction stus with
  | nil => intro r; rfl
  | cons stu stus ih =>
    intro r
    rw [List.foldl_cons, List.filterMap_cons, applySTU_eq]
    cases hsd : stuDelay stu with
    | none => exact ih r
    | some d => rw [ih { r with retraso := Int.fdiv d 60 }]; rfl

theorem getKey_updateKey_self : ∀ (m : Trenes) (k : String)
    (f : TrainRecord → TrainRecord) (r : TrainRecord),
    getKey m k = some r → getKey (updateKey m k f) k = some (f r) := by
  intro m
  induction m with
  | nil => intro k f r h; cases h
  | cons p rest ih =>
    intro k f r h
    by_cases hp : p.1 = k
    · rw [getKey, if_pos hp] at h
      injection h with h2
      rw [updateKey, if_pos hp, getKey, if_pos hp, h2]
    · rw [getKey, if_neg hp] at h
      rw [updateKey, if_neg hp, getKey, if_neg hp]
      exact ih k f r h

theorem getKey_updateKey_ne : ∀ (m : Trenes) (k : String)
    (f : TrainRecord → TrainRecord) (j : String), j ≠ k →
    getKey (updateKey m k f) j = getKey m j := by
  intro m
  induction m with
  | nil => intro k f j _; rfl
  | cons p rest ih =>
    intro k f j hjk
    by_cases hp : p.1 = k
    · have hpj : ¬(p.1 = j) := fun h => hjk (h ▸ hp)
      rw [updateKey, if_pos hp, getKey, if_neg hpj, getKey, if_neg hpj]
      exact ih k f j hjk
    · rw [updateKey, if_neg hp]
      by_cases hpj : p.1 = j
      · rw [getKey, if_pos hpj, getKey, if_pos hpj]
      · rw [getKey, if_neg hpj, getKey, if_neg hpj]
        exact ih k f j hjk

theorem processUpdateEnt_getKey (ent : Entity) (m : Trenes) (k : String)
    (r : TrainRecord) (hr : getKey m k = some r) :
    getKey (processUpdateEnt m ent) k =
      some { r with retraso := ((entityDelaysFor k ent).foldl
        (fun _ d => Int.fdiv d 60) r.retraso) } := by
  cases htu : ent.tripUpdate with
  | none =>
    have h1 : processUpdateEnt m ent = m := by simp [processUpdateEnt, htu]
    have h2 : entityDelaysFor k ent = [] := by simp [entityDelaysFor, htu]
    rw [h1, h2]
    exact hr
  | some tu =>
    cases hts : truthyStr (tu.trip.bind TripDesc.tripId) with
    | none =>
      have h1 : processUpdateEnt m ent = m := by
        simp [processUpdateEnt, htu, hts]
      have h2 : entityDelaysFor k ent = [] := by
        simp [entityDelaysFor, htu, hts]
      rw [h1, h2]
      exact hr
    | some trip =>
      by_cases htk : trip = k
      · subst htk
        have h1 : processUpdateEnt m ent = updateKey m trip
            (fun r0 => (tu.stopTimeUpdate.getD []).foldl applySTU r0) := by
          simp [processUpdateEnt, htu, hts, hr]
        have h2 : entityDelaysFor trip ent =
            (tu.stopTimeUpdate.getD []).filterMap stuDelay := by
          simp [entityDelaysFor, htu, hts]
        rw [h1, h2, getKey_updateKey_self m trip _ r hr, applySTU_foldl]
      · have h2 : entityDelaysFor k ent = [] := by
          simp [entityDelaysFor, htu, hts, htk]
        rw [h2]
        cases hg : getKey m trip with
        | none =>
          have h1 : processUpdateEnt m ent = m := by
            simp [processUpdateEnt, htu, hts, hg]
          rw [h1]
          exact hr
        | some r0 =>
          have h1 : processUpdateEnt m ent = updateKey m trip
              (fun x => (tu.stopTimeUpdate.getD []).foldl applySTU x) := by
            simp [processUpdateEnt, htu, hts, hg]
          rw [h1, getKey_updateKey_ne m trip _ k (fun h => htk h.symm)]
          exact hr

theorem foldl_processUpdateEnt_getKey : ∀ (ents : List Entity) (m : Trenes)
    (k : String) (r : TrainRecord), getKey m k = some r →
    getKey (ents.foldl processUpdateEnt m) k =
      some { r with retraso := ((delaysFor k ents).foldl
        (fun _ d => Int.fdiv d 60) r.retraso) } := by
  intro ents
  induction ents with
  | nil => intro m k r hr; exact hr
  | cons ent ents ih =>
    intro m k r hr
    rw [List.foldl_cons]
    rw [ih (processUpdateEnt m ent) k _ (processUpdateEnt_getKey ent m k r hr)]
    simp only [delaysFor, List.foldl_append]

theorem foldl_replace_getLast : ∀ (ds : List Int) (i : Int),
    ds.foldl (fun _ d => Int.fdiv d 60) i =
      (ds.getLast?).elim i (fun d => Int.fdiv d 60) := by
  intro ds
  induction ds with
  | nil => intro i; rfl
  | cons d ds ih =>
    intro i
    rw [List.foldl_cons]
    cases ds with
    | nil => rfl
    | cons e es =>
      rw [ih (Int.fdiv d 60), List.getLast?_cons_cons,
        List.getLast?_eq_getLast_of_ne_nil (List.cons_ne_nil e es)]
      rfl

theorem mem_replaceKey : ∀ (m : Trenes) (k : String) (v : TrainRecord)
    (q : String × TrainRecord), q ∈ replaceKey m k v → q ∈ m ∨ q = (k, v) := by
  intro m
  induction m with
  | nil => intro k v q h; cases h
  | cons p rest ih =>
    intro k v q h
    by_cases hp : p.1 = k
    · rw [replaceKey, if_pos hp] at h
      rcases List.mem_cons.mp h with rfl | h2
      · exact Or.inr rfl
      · rcases ih k v q h2 with h3 | h3
        · exact Or.inl (List.mem_cons_of_mem _ h3)
        · exact Or.inr h3
    · rw [replaceKey, if_neg hp] at h
      rcases List.mem_cons.mp h with rfl | h2
      · exact Or.inl (List.mem_cons_self _ _)
      · rcases ih k v q h2 with h3 | h3
        · exact Or.inl (List.mem_cons_of_mem _ h3)
        · exact Or.inr h3

theorem mem_setKey (m : Trenes) (k : String) (v : TrainRecord)
    (q : String × TrainRecord) (h : q ∈ setKey m k v) : q ∈ m ∨ q = (k, v) := by
  unfold setKey at h
  split at h
  · exact mem_replaceKey m k v q h
  · rcases List.mem_append.mp h with h2 | h2
    · exact Or.inl h2
    · rcases List.mem_cons.mp h2 with rfl | h3
      · exact Or.inr rfl
      · cases h3

theorem processVehicleEnt_inv (m : Trenes) (ent : Entity)
    (hm : ∀ q ∈ m, q.2.retraso = 0 ∧ q.2.trip_id = q.1) :
    ∀ q ∈ processVehicleEnt m ent, q.2.retraso = 0 ∧ q.2.trip_id = q.1 := by
  intro q hq
  unfold processVehicleEnt at hq
  split at hq
  · exact hm q hq
  · split at hq
    · exact hm q hq
    · rcases mem_setKey _ _ _ q hq with h2 | h2
      · exact hm q h2
      · rw [h2]
        exact ⟨rfl, rfl⟩

theorem vehPhase_inv : ∀ (ents : List Entity) (m : Trenes),
    (∀ q ∈ m, q.2.retraso = 0 ∧ q.2.trip_id = q.1) →
    ∀ q ∈ ents.foldl processVehicleEnt m, q.2.retraso = 0 ∧ q.2.trip_id = q.1 := by
  intro ents
  induction ents with
  | nil => intro m hm; exact hm
  | cons ent ents ih =>
    intro m hm
    rw [List.foldl_cons]
    exact ih (processVehicleEnt m ent) (processVehicleEnt_inv m ent hm)

theorem keys_replaceKey : ∀ (m : Trenes) (k : String) (v : TrainRecord),
    (replaceKey m k v).map Prod.fst = m.map Prod.fst := by
  intro m
  induction m with
  | nil => intro k v; rfl
  | cons p rest ih =>
    intro k v
    by_cases hp : p.1 = k
    · rw [replaceKey, if_pos hp, List.map_cons, List.map_cons, ih, hp]
    · rw [replaceKey, if_neg hp, List.map_cons, List.map_cons, ih]

theorem hasKey_false_notMem : ∀ (m : Trenes) (k : String),
    hasKey m k = false → k ∉ m.map Prod.fst := by
  intro m
  induction m with
  | nil => intro k _ h; cases h
  | cons p rest ih =>
    intro k hk h
    by_cases hp : p.1 = k
    · rw [hasKey, if_pos hp] at hk
      cases hk
    · rw [hasKey, if_neg hp] at hk
      rcases List.mem_cons.mp h with h2 | h2
      · exact hp h2.symm
      · exact ih k hk h2

theorem nodupKeys_setKey (m : Trenes) (k : String) (v : TrainRecord)
    (h : (m.map Prod.fst).Nodup) : ((setKey m k v).map Prod.fst).Nodup := by
  unfold setKey
  split
  · rw [keys_replaceKey]
    exact h
  · rename_i hk
    rw [List.map_append]
    rw [List.nodup_append]
    refine ⟨h, List.nodup_singleton k, ?_⟩
    intro x hx hx2
    rcases List.mem_cons.mp hx2 with rfl | h3
    · exact hasKey_false_notMem m x (Bool.of_not_eq_true hk) hx
    · cases h3

theorem nodupKeys_processVehicleEnt (m : Trenes) (ent : Entity)
    (h : (m.map Prod.fst).Nodup) :
    ((processVehicleEnt m ent).map Prod.fst).Nodup := by
  unfold processVehicleEnt
  split
  · exact h
  · split
    · exact h
    · exact nodupKeys_setKey m _ _ h

theorem nodupKeys_vehPhase : ∀ (ents : List Entity) (m : Trenes),
    (m.map Prod.fst).Nodup → ((ents.foldl processVehicleEnt m).map Prod.fst).Nodup := by
  intro ents
  induction ents with
  | nil => intro m hm; exact hm
  | cons ent ents ih =>
    intro m hm
    rw [List.foldl_cons]
    exact ih (processVehicleEnt m ent) (nodupKeys_processVehicleEnt m ent hm)

theorem keys_updateKey : ∀ (m : Trenes) (k : String)
    (f : TrainRecord → TrainRecord),
    (updateKey m k f).map Prod.fst = m.map Prod.fst := by
  intro m
  induction m with
  | nil => intro k f; rfl
  | cons p rest ih =>
    intro k f
    by_cases hp : p.1 = k
    · rw [updateKey, if_pos hp, List.map_cons, List.map_cons, ih]
    · rw [updateKey, if_neg hp, List.map_cons, List.map_cons, ih]

theorem keys_processUpdateEnt (m : Trenes) (ent : Entity) :
    (processUpdateEnt m ent).map Prod.fst = m.map Prod.fst := by
  unfold processUpdateEnt
  split
  · rfl
  · split
    · rfl
    · split
      · rfl
      · exact keys_updateKey m _ _

theorem keys_updPhase : ∀ (ents : List Entity) (m : Trenes),
    (ents.foldl processUpdateEnt m).map Prod.fst = m.map Prod.fst := by
  intro ents
  induction ents with
  | nil => intro m; rfl
  | cons ent ents ih =>
    intro m
    rw [List.foldl_cons, ih, keys_processUpdateEnt]

theorem getKey_some_mem : ∀ (m : Trenes) (k : String) (r : TrainRecord),
    getKey m k = some r → (k, r) ∈ m := by
  intro m
  induction m with
  | nil => intro k r h; cases h
  | cons p rest ih =>
    intro k r h
    by_cases hp : p.1 = k
    · rw [getKey, if_pos hp] at h
      injection h with h2
      have : (k, r) = p := by
        rw [← hp, ← h2]
      rw [this]
      exact List.mem_cons_self _ _
    · rw [getKey, if_neg hp] at h
      exact List.mem_cons_of_mem _ (ih k r h)

theorem getKey_isSome_of_mem_keys : ∀ (m : Trenes) (k : String),
    k ∈ m.map Prod.fst → ∃ r, getKey m k = some r := by
  intro m
  induction m with
  | nil => intro k h; cases h
  | cons p rest ih =>
    intro k h
    by_cases hp : p.1 = k
    · exact ⟨p.2, by rw [getKey, if_pos hp]⟩
    · rcases List.mem_cons.mp h with h2 | h2
      · exact absurd h2.symm hp
      · obtain ⟨r, hr⟩ := ih k h2
        exact ⟨r, by rw [getKey, if_neg hp]; exact hr⟩

theorem mem_getKey_of_nodupKeys : ∀ (m : Trenes),
    (m.map Prod.fst).Nodup → ∀ p ∈ m, getKey m p.1 = some p.2 := by
  intro m
  induction m with
  | nil => intro _ p hp; cases hp
  | cons q rest ih =>
    intro hnd p hp
    rw [List.map_cons, List.nodup_cons] at hnd
    rcases List.mem_cons.mp hp with rfl | h2
    · rw [getKey, if_pos rfl]
    · by_cases hq : q.1 = p.1
      · exact absurd (hq ▸ List.mem_map_of_mem Prod.fst h2) hnd.1
      · rw [getKey, if_neg hq]
        exact ih hnd.2 p h2

/-- C1 counterexample: `if (stu.arrival?.delay)` treats any non-zero
delay — negative included — as truthy, so an arrival delay of -30
seconds gives `retraso = Math.floor(-30/60) = -1`, a negative value,
refuting the claimed non-negativity of `delayMinutes`. -/
theorem C1_counterexample :
    ((buildData ⟨some [⟨some ⟨some ⟨some "T1"⟩, none, none⟩, none, none⟩]⟩
        ⟨some [⟨none, some ⟨some ⟨some "T1"⟩, some [⟨some ⟨some (-30)⟩⟩]⟩,
          none⟩]⟩ emptyFeed).trenes.map TrainRecord.retraso = [-1]) ∧
    (-1 : Int) < 0 := by
  decide

/-- C1 (amended): `delayMinutes` (`retraso`) is an integer — not
necessarily non-negative — that defaults to 0 and is changed only by
trip-update data: for every record of a merge result it equals
`Math.floor(d/60)` (integer floor division) of the last non-zero arrival
delay `d` carried for its trip id by the updates feed, in upstream
order, and 0 when there is no such delay.  An arrival delay of 125
seconds yields 2; a negative delay yields a negative value. -/
theorem C1_amended_delay_characterization (v u a : Feed) :
    ∀ r ∈ (buildData v u a).trenes,
      r.retraso = ((delaysFor r.trip_id (entities u)).getLast?).elim 0
        (fun d => Int.fdiv d 60) := by
  intro r hr
  have hr2 : r ∈ ((entities u).foldl processUpdateEnt
      ((entities v).foldl processVehicleEnt [])).map Prod.snd := hr
  obtain ⟨p, hp, hps⟩ := List.mem_map.mp hr2
  have hinv : ∀ q ∈ (entities v).foldl processVehicleEnt ([] : Trenes),
      q.2.retraso = 0 ∧ q.2.trip_id = q.1 :=
    vehPhase_inv (entities v) [] (by intro q hq; cases hq)
  have hnd1 : (((entities v).foldl processVehicleEnt
      ([] : Trenes)).map Prod.fst).Nodup :=
    nodupKeys_vehPhase (entities v) [] List.nodup_nil
  have hkeys := keys_updPhase (entities u)
    ((entities v).foldl processVehicleEnt [])
  have hnd2 : (((entities u).foldl processUpdateEnt
      ((entities v).foldl processVehicleEnt [])).map Prod.fst).Nodup := by
    rw [hkeys]
    exact hnd1
  have hget2 := mem_getKey_of_nodupKeys _ hnd2 p hp
  have hkmem : p.1 ∈ ((entities v).foldl processVehicleEnt
      ([] : Trenes)).map Prod.fst := by
    rw [← hkeys]
    exact List.mem_map_of_mem Prod.fst hp
  obtain ⟨r0, hr0⟩ := getKey_isSome_of_mem_keys _ p.1 hkmem
  have hstep := foldl_processUpdateEnt_getKey (entities u) _ p.1 r0 hr0
  have hps2 : p.2 = { r0 with retraso := ((delaysFor p.1 (entities u)).foldl
      (fun _ d => Int.fdiv d 60) r0.retraso) } :=
    Option.some.inj (hget2.symm.trans hstep)
  obtain ⟨hz, hid⟩ := hinv (p.1, r0) (getKey_some_mem _ p.1 r0 hr0)
  rw [← hps, hps2]
  have htid : ({ r0 with retraso := ((delaysFor p.1 (entities u)).foldl
      (fun _ d => Int.fdiv d 60) r0.retraso) } : TrainRecord).trip_id = p.1 :=
    hid
  rw [htid]
  show (delaysFor p.1 (entities u)).foldl (fun _ d => Int.fdiv d 60) r0.retraso =
    ((delaysFor p.1 (entities u)).getLast?).elim 0 (fun d => Int.fdiv d 60)
  rw [hz]
  exact foldl_replace_getLast (delaysFor p.1 (entities u)) 0

/-- C1 witness: for a vehicle on trip `"T1"` and one matching update
with arrival delay 125 s, the merged record's retraso is 2 =
floor(125/60), matching the characterization. -/
theorem C1_witness :
    ({ trip_id := "T1", linea := "??", lat := none, lon := none,
       estado := "UNKNOWN", retraso := 2 } : TrainRecord).retraso =
      ((delaysFor "T1" (entities ⟨some [⟨none, some ⟨some ⟨some "T1"⟩,
        some [⟨some ⟨some 125⟩⟩]⟩, none⟩]⟩)).getLast?).elim 0
        (fun d => Int.fdiv d 60) := by
  have h := C1_amended_delay_characterization
    ⟨some [⟨some ⟨some ⟨some "T1"⟩, none, none⟩, none, none⟩]⟩
    ⟨some [⟨none, some ⟨some ⟨some "T1"⟩, some [⟨some ⟨some 125⟩⟩]⟩, none⟩]⟩
    emptyFeed
    { trip_id := "T1", linea := "??", lat := none, lon := none,
      estado := "UNKNOWN", retraso := 2 } (by decide)
  exact h
